import Mathlib

/-!
Verification of the multisig contract (`src/multisig/src/lib.rs`) of the
sc-bridge-elrond repository, as a shallow embedding in Lean 4.

Addresses and big-integer amounts are embedded as `Nat`; storage mappers
become fields of an `MState` record; each endpoint becomes a function
`MState → Except String MState` where `Except.error` models the host
semantics of `SCResult::Err` / a signalled error: the whole transaction is
reverted, so the caller observes the pre-call state (function `run_op`).
-/

namespace Multisig

/-- Modelled from the spec: the role enum of `user_role.rs`, which is part of
the repository but not under `src/`.  Spec §3: `None` has no rights;
`Proposer` may propose, discard and execute but not sign; `BoardMember` has
all Proposer rights plus signing. -/
inductive UserRole
  | None
  | Proposer
  | BoardMember
deriving DecidableEq, Repr

/-- Modelled from the spec: only board members may sign (§3). -/
def UserRole.can_sign : UserRole → Bool
  | .BoardMember => true
  | _ => false

/-- Modelled from the spec: proposal rights for Proposer and BoardMember (§4.4). -/
def UserRole.can_propose : UserRole → Bool
  | .Proposer => true
  | .BoardMember => true
  | _ => false

/-- Modelled from the spec: Proposer "may execute ratified actions" (§3). -/
def UserRole.can_perform_action (r : UserRole) : Bool := r.can_propose

/-- Modelled from the spec: "requires caller role can discard (Proposer or
BoardMember)" (§4.4). -/
def UserRole.can_discard_action (r : UserRole) : Bool := r.can_propose

/-- Modelled from the spec: the `Action` enum of `action.rs`, which is part of
the repository but not under `src/`.  The variants are those matched in
`perform_action` in `lib.rs`; the three delegated-call families
(`EgldEsdtSwapCall`, `EsdtSafeCall`, `MultiTransferEsdtCall`) are collapsed
into one `ExternalCall` variant with an opaque payload, since their effect on
the local contract state is empty (they only issue an outgoing call, §4.8). -/
inductive MAction
  | Nothing
  | AddBoardMember (addr : Nat)
  | AddProposer (addr : Nat)
  | RemoveUser (addr : Nat)
  | SlashUser (addr : Nat)
  | ChangeQuorum (q : Nat)
  | SCDeploy (amount : Nat) (code : List Nat)
  | ExternalCall (payload : Nat)
deriving DecidableEq, Repr

/-- Predicate `Action::is_slash_user`, used by the pause check in `perform_action`. -/
def MAction.is_slash_user : MAction → Bool
  | .SlashUser _ => true
  | _ => false

/-- The contract storage of `lib.rs`.
`users` is the `UserMapper`: the address with user id `i` (1-based) sits at
list index `i - 1`; `user_roles` is the `user_role` storage keyed by user id
(unwritten keys decode to `UserRole.None`); `actions` is the `VecMapper`
`action_data` (a cleared entry is `none`, the list length is the mapper
length, which never shrinks); `action_signers` is `action_signer_ids`;
`sent` records the outgoing EGLD transfers made by `direct_egld`. -/
structure MState where
  users : List Nat
  user_roles : Nat → UserRole
  num_board_members : Nat
  num_proposers : Nat
  quorum : Nat
  required_stake_amount : Nat
  slash_amount : Nat
  amount_staked : Nat → Nat
  actions : List (Option MAction)
  action_signers : Nat → List Nat
  slashed_tokens_amount : Nat
  pause_status : Bool
  sent : List (Nat × Nat)

/-- Pointwise update of a user-id-keyed storage map. -/
def upd (f : Nat → UserRole) (id : Nat) (v : UserRole) : Nat → UserRole :=
  fun j => if j = id then v else f j

/-- Search of `UserMapper::get_user_id`: 1-based index of `addr` in the list,
`0` when absent. -/
def user_index : List Nat → Nat → Nat → Nat
  | [], _, _ => 0
  | a :: rest, addr, idx => if a = addr then idx else user_index rest addr (idx + 1)

def get_user_id (s : MState) (addr : Nat) : Nat := user_index s.users addr 1

/-- Lookup `UserMapper::get_user_address_unchecked` (0 stands for the zero address). -/
def get_user_address (s : MState) (id : Nat) : Nat := s.users.getD (id - 1) 0

/-- storage_get "user_role". -/
def get_user_id_to_role (s : MState) (id : Nat) : UserRole := s.user_roles id

/-- storage_set "user_role". -/
def set_user_id_to_role (s : MState) (id : Nat) (r : UserRole) : MState :=
  { s with user_roles := upd s.user_roles id r }

/-- Registration `UserMapper::get_or_create_user`: returns the updated state and the
(1-based, never 0) user id. -/
def get_or_create_user (s : MState) (addr : Nat) : MState × Nat :=
  let id := get_user_id s addr
  if id = 0 then ({ s with users := s.users ++ [addr] }, s.users.length + 1)
  else (s, id)

/-- The `userRole` view (`lib.rs` 504-512): id 0 maps to `None`. -/
def user_role (s : MState) (addr : Nat) : UserRole :=
  let id := get_user_id s addr
  if id = 0 then UserRole.None else get_user_id_to_role s id

/-- Check `has_enough_stake` (`lib.rs` 770-775). -/
def has_enough_stake (s : MState) (addr : Nat) : Bool :=
  decide (s.required_stake_amount ≤ s.amount_staked addr)

def action_signer_ids (s : MState) (id : Nat) : List Nat := s.action_signers id

def set_action_signer_ids (s : MState) (id : Nat) (l : List Nat) : MState :=
  { s with action_signers := fun j => if j = id then l else s.action_signers j }

/-- The occupied contents of action slot `id` (`VecMapper` items are 1-based;
a cleared or out-of-range slot gives `none`). -/
def action_item (s : MState) (id : Nat) : Option MAction :=
  if id = 0 then Option.none else (s.actions[id - 1]?).join

/-- Negation of `VecMapper::item_is_empty_unchecked`. -/
def action_is_pending (s : MState) (id : Nat) : Bool := (action_item s id).isSome

/-- View `getActionLastIndex` (`lib.rs` 572-575). -/
def get_action_last_index (s : MState) : Nat := s.actions.length

/-- Cleanup `clear_action` (`lib.rs` 765-768). -/
def clear_action (s : MState) (id : Nat) : MState :=
  let s1 := if id = 0 then s else { s with actions := s.actions.set (id - 1) Option.none }
  set_action_signer_ids s1 id []

/-- View `getActionValidSignerCount` (`lib.rs` 550-560): counts the raw signer ids
whose current role can sign.  Note: the staked amount is not consulted here. -/
def get_action_valid_signer_count (s : MState) (id : Nat) : Nat :=
  (action_signer_ids s id).countP (fun sid => (get_user_id_to_role s sid).can_sign)

/-- View `quorumReached` (`lib.rs` 562-568). -/
def quorum_reached (s : MState) (id : Nat) : Bool :=
  decide (s.quorum ≤ get_action_valid_signer_count s id)

/-- Transaction outcome: `Except.error` models `SCResult::Err` / a signalled
error, which the host reverts wholesale. -/
abbrev SCR (α : Type) := Except String α

/-- The `stake` endpoint (`lib.rs` 94-109); `payment` is the EGLD payment. -/
def exec_stake (s : MState) (caller payment : Nat) : SCR MState :=
  if user_role s caller = UserRole.BoardMember then
    .ok { s with amount_staked :=
            fun a => if a = caller then s.amount_staked a + payment else s.amount_staked a }
  else .error "Only board members can stake"

/-- The `unstake` endpoint (`lib.rs` 111-133). -/
def exec_unstake (s : MState) (caller amount : Nat) : SCR MState :=
  let staked := s.amount_staked caller
  if amount ≤ staked then
    if user_role s caller = UserRole.BoardMember ∧ staked - amount < s.required_stake_amount
    then .error "cannot unstake, must keep minimum amount as insurance"
    else
      .ok { s with
              amount_staked := fun a => if a = caller then staked - amount else s.amount_staked a,
              sent := s.sent ++ [(caller, amount)] }
  else .error "cannot unstake more than amount staked"

/-- The `sign` endpoint (`lib.rs` 136-156): push the caller id if absent. -/
def exec_sign (s : MState) (caller action_id : Nat) : SCR MState :=
  if action_is_pending s action_id then
    let caller_id := get_user_id s caller
    let caller_role := get_user_id_to_role s caller_id
    if caller_role.can_sign then
      if has_enough_stake s caller then
        let signer_ids := action_signer_ids s action_id
        let signer_ids2 := if caller_id ∈ signer_ids then signer_ids else signer_ids ++ [caller_id]
        .ok (set_action_signer_ids s action_id signer_ids2)
      else .error "not enough stake"
    else .error "only board members can sign"
  else .error "action does not exist"

/-- Search `Vec::iter().position(..)` over the signer list. -/
def find_position : List Nat → Nat → Option Nat
  | [], _ => Option.none
  | x :: rest, target =>
      if x = target then some 0 else (find_position rest target).map (· + 1)

/-- Removal `Vec::swap_remove(i)`: move the last element into slot `i`, drop the last. -/
def swap_remove (l : List Nat) (i : Nat) : List Nat :=
  match l.getLast? with
  | Option.none => l
  | some last => (l.set i last).dropLast

/-- The `unsign` endpoint (`lib.rs` 160-185). -/
def exec_unsign (s : MState) (caller action_id : Nat) : SCR MState :=
  if action_is_pending s action_id then
    let caller_id := get_user_id s caller
    let caller_role := get_user_id_to_role s caller_id
    if caller_role.can_sign then
      if has_enough_stake s caller then
        let signer_ids := action_signer_ids s action_id
        let signer_ids2 :=
          match find_position signer_ids caller_id with
          | some pos => swap_remove signer_ids pos
          | Option.none => signer_ids
        .ok (set_action_signer_ids s action_id signer_ids2)
      else .error "not enough stake"
    else .error "only board members can un-sign"
  else .error "action does not exist"

/-- Helper `propose_action` (`lib.rs` 585-602): push the action (the new id is the
new `VecMapper` length) and auto-sign when the caller can sign. -/
def propose_action (s : MState) (caller : Nat) (action : MAction) : SCR (MState × Nat) :=
  let caller_id := get_user_id s caller
  let caller_role := get_user_id_to_role s caller_id
  if caller_role.can_propose then
    let s1 := { s with actions := s.actions ++ [some action] }
    let action_id := s.actions.length + 1
    if caller_role.can_sign then
      .ok (set_action_signer_ids s1 action_id [caller_id], action_id)
    else .ok (s1, action_id)
  else .error "only board members and proposers can propose"

/-- Role mutator `change_user_role` (`lib.rs` 623-655). -/
def change_user_role (s : MState) (user_address : Nat) (new_role : UserRole) : MState :=
  let p := get_or_create_user s user_address
  let s1 := p.1
  let user_id := p.2
  let old_role := if user_id = 0 then UserRole.None else get_user_id_to_role s1 user_id
  let s2 := set_user_id_to_role s1 user_id new_role
  let s3 :=
    if old_role = UserRole.BoardMember then
      if new_role ≠ UserRole.BoardMember then
        { s2 with num_board_members := s2.num_board_members - 1 }
      else s2
    else
      if new_role = UserRole.BoardMember then
        { s2 with num_board_members := s2.num_board_members + 1 }
      else s2
  if old_role = UserRole.Proposer then
    if new_role ≠ UserRole.Proposer then
      { s3 with num_proposers := s3.num_proposers - 1 }
    else s3
  else
    if new_role = UserRole.Proposer then
      { s3 with num_proposers := s3.num_proposers + 1 }
    else s3

/-- The per-variant dispatch of `perform_action` (`lib.rs` 672-762), applied
to the state `s1` left after the initial `clear_action`. -/
def perform_action_effect (s1 : MState) : MAction → SCR MState
  | .Nothing => .ok s1
  | .AddBoardMember addr => .ok (change_user_role s1 addr UserRole.BoardMember)
  | .AddProposer addr =>
      let s2 := change_user_role s1 addr UserRole.Proposer
      if s2.quorum ≤ s2.num_board_members then .ok s2
      else .error "quorum cannot exceed board size"
  | .RemoveUser addr =>
      let s2 := change_user_role s1 addr UserRole.None
      if s2.num_board_members + s2.num_proposers = 0 then
        .error "cannot remove all board members and proposers"
      else if s2.quorum ≤ s2.num_board_members then .ok s2
      else .error "quorum cannot exceed board size"
  | .SlashUser addr =>
      let s2 := change_user_role s1 addr UserRole.None
      if s2.num_board_members + s2.num_proposers = 0 then
        .error "cannot remove all board members and proposers"
      else if ¬ (s2.quorum ≤ s2.num_board_members) then
        .error "quorum cannot exceed board size"
      else
        let slash := s2.slash_amount
        let stake := s2.amount_staked addr
        if slash ≤ stake then
          .ok { s2 with
                  amount_staked := fun a => if a = addr then stake - slash
                                            else s2.amount_staked a,
                  slashed_tokens_amount := s2.slashed_tokens_amount + slash }
        else .error "cannot subtract because result would be negative"
  | .ChangeQuorum q =>
      if q ≤ s1.num_board_members then .ok { s1 with quorum := q }
      else .error "quorum cannot exceed board size"
  | .SCDeploy _ _ => .ok s1
  | .ExternalCall _ => .ok s1

/-- Executor `perform_action` (`lib.rs` 657-763).  A cleared or out-of-range slot
holds no serialized bytes, so decoding the action fails; `BigUint`
subtraction underflow in the slash branch signals a host error; both are
`Except.error`s here.  `clear_action` runs before the dispatch, exactly as in
the source. -/
def perform_action (s : MState) (action_id : Nat) : SCR MState :=
  match action_item s action_id with
  | Option.none => .error "storage decode error"
  | some action =>
    if s.pause_status ∧ ¬ action.is_slash_user then
      .error "Only slash user action may be performed while paused"
    else perform_action_effect (clear_action s action_id) action

/-- The `performAction` endpoint (`lib.rs` 424-439). -/
def exec_perform_action (s : MState) (caller action_id : Nat) : SCR MState :=
  let caller_id := get_user_id s caller
  let caller_role := get_user_id_to_role s caller_id
  if caller_role.can_perform_action then
    if quorum_reached s action_id then perform_action s action_id
    else .error "quorum has not been reached"
  else .error "only board members and proposers can perform actions"

/-- The `discardAction` endpoint (`lib.rs` 444-460). -/
def exec_discard_action (s : MState) (caller action_id : Nat) : SCR MState :=
  let caller_id := get_user_id s caller
  let caller_role := get_user_id_to_role s caller_id
  if caller_role.can_discard_action then
    if get_action_valid_signer_count s action_id = 0 then .ok (clear_action s action_id)
    else .error "cannot discard action with valid signatures"
  else .error "only board members and proposers can discard actions"

/-- Endpoint `pause` (`lib.rs` 59-66); the owner check is abstracted away (it only
restricts who may flip the flag). -/
def exec_pause (s : MState) : SCR MState := .ok { s with pause_status := true }

/-- Endpoint `unpause` (`lib.rs` 68-75). -/
def exec_unpause (s : MState) : SCR MState := .ok { s with pause_status := false }

/-- The loop body of `UserMapper::get_or_create_users` as used by `init`
(`lib.rs` 36-44): create each board address, flag duplicates (an address
already present), and give each the BoardMember role. -/
def init_users : MState → List Nat → MState × Bool
  | s, [] => (s, false)
  | s, addr :: rest =>
      let prev := get_user_id s addr
      let p := get_or_create_user s addr
      let s2 := set_user_id_to_role p.1 p.2 UserRole.BoardMember
      let q := init_users s2 rest
      (q.1, q.2 || decide (prev ≠ 0))

/-- Fresh contract storage before `init` runs (every unset key decodes to
zero / empty / `None`). -/
def initial_state : MState :=
  { users := []
    user_roles := fun _ => UserRole.None
    num_board_members := 0
    num_proposers := 0
    quorum := 0
    required_stake_amount := 0
    slash_amount := 0
    amount_staked := fun _ => 0
    actions := []
    action_signers := fun _ => []
    slashed_tokens_amount := 0
    pause_status := false
    sent := [] }

/-- The `init` constructor (`lib.rs` 21-55). -/
def exec_init (required_stake slash_amount quorum : Nat) (board : List Nat) : SCR MState :=
  if board = [] then .error "board cannot be empty on init"
  else if ¬ (quorum ≤ board.length) then .error "quorum cannot exceed board size"
  else
    let s0 := { initial_state with quorum := quorum }
    let p := init_users s0 board
    if p.2 then .error "duplicate board member"
    else
      if slash_amount ≤ required_stake then
        .ok { p.1 with
                num_board_members := board.length
                required_stake_amount := required_stake
                slash_amount := slash_amount }
      else .error "slash amount must be less than or equal to required stake"

/-- The state-mutating operations of the contract surface. -/
inductive Op
  | stake (caller payment : Nat)
  | unstake (caller amount : Nat)
  | sign (caller action_id : Nat)
  | unsign (caller action_id : Nat)
  | propose (caller : Nat) (action : MAction)
  | performAction (caller action_id : Nat)
  | discardAction (caller action_id : Nat)
  | pause
  | unpause

def exec_op : Op → MState → SCR MState
  | .stake c p, s => exec_stake s c p
  | .unstake c a, s => exec_unstake s c a
  | .sign c i, s => exec_sign s c i
  | .unsign c i, s => exec_unsign s c i
  | .propose c a, s => (propose_action s c a).map Prod.fst
  | .performAction c i, s => exec_perform_action s c i
  | .discardAction c i, s => exec_discard_action s c i
  | .pause, s => exec_pause s
  | .unpause, s => exec_unpause s

/-- Host semantics of a transaction: an error reverts every storage write. -/
def run_op (o : Op) (s : MState) : MState :=
  match exec_op o s with
  | .ok s' => s'
  | .error _ => s

/-- Extract the state of a successful transaction (fresh storage otherwise);
used to name concrete states in witnesses. -/
def state_of : SCR MState → MState
  | .ok s => s
  | .error _ => initial_state

/-- States reachable by successful operations from a successful `init`. -/
inductive Reachable : MState → Prop
  | init (required_stake slash_amount quorum : Nat) (board : List Nat) (s : MState) :
      exec_init required_stake slash_amount quorum board = .ok s → Reachable s
  | step (o : Op) (s s' : MState) :
      Reachable s → exec_op o s = .ok s' → Reachable s'

/-- Number of registered user ids in `1..n` whose stored role is `r`. -/
def count_role_up_to (f : Nat → UserRole) (r : UserRole) : Nat → Nat
  | 0 => 0
  | n + 1 => count_role_up_to f r n + (if f (n + 1) = r then 1 else 0)

/-- Number of registered users currently holding role `r`. -/
def count_role (s : MState) (r : UserRole) : Nat :=
  count_role_up_to s.user_roles r s.users.length

/-- The state invariant: the denormalized counters agree with the role map,
roles of unregistered ids are `None`, and signer sets beyond the action log
are empty. -/
def Inv (s : MState) : Prop :=
  s.num_board_members = count_role s UserRole.BoardMember ∧
  s.num_proposers = count_role s UserRole.Proposer ∧
  (∀ id, s.users.length < id → s.user_roles id = UserRole.None) ∧
  (∀ id, s.actions.length < id → s.action_signers id = [])

theorem count_upd_out (f : Nat → UserRole) (r v : UserRole) (id : Nat) :
    ∀ n, n < id ∨ id = 0 → count_role_up_to (upd f id v) r n = count_role_up_to f r n := by
  intro n
  induction n with
  | zero => intro _; rfl
  | succ n ih =>
      intro h
      have hne : n + 1 ≠ id := by omega
      have hn : n < id ∨ id = 0 := by omega
      simp only [count_role_up_to, ih hn, upd, if_neg hne]

theorem count_upd_in (f : Nat → UserRole) (r v : UserRole) (i : Nat) :
    ∀ n, 1 ≤ i → i ≤ n →
      count_role_up_to (upd f i v) r n + (if f i = r then 1 else 0)
        = count_role_up_to f r n + (if v = r then 1 else 0) := by
  intro n
  induction n with
  | zero => intro h1 h2; omega
  | succ n ih =>
      intro h1 h2
      by_cases hid : i = n + 1
      · subst hid
        have hpre := count_upd_out f r v (n + 1) n (Or.inl (Nat.lt_succ_self n))
        simp [count_role_up_to, hpre, upd]
        omega
      · have h2' : i ≤ n := by omega
        have hrec := ih h1 h2'
        have hne : n + 1 ≠ i := fun h => hid h.symm
        simp only [count_role_up_to, upd, if_neg hne]
        omega

theorem count_upd_new (f : Nat → UserRole) (r v : UserRole) (n : Nat) :
    count_role_up_to (upd f (n + 1) v) r (n + 1)
      = count_role_up_to f r n + (if v = r then 1 else 0) := by
  have hpre := count_upd_out f r v (n + 1) n (Or.inl (Nat.lt_succ_self n))
  simp [count_role_up_to, hpre, upd]

theorem user_index_range (addr : Nat) :
    ∀ (l : List Nat) (idx : Nat),
      user_index l addr idx = 0 ∨
        (idx ≤ user_index l addr idx ∧ user_index l addr idx < idx + l.length) := by
  intro l
  induction l with
  | nil => intro idx; left; rfl
  | cons a rest ih =>
      intro idx
      by_cases ha : a = addr
      · right
        simp only [user_index, if_pos ha, List.length_cons]
        omega
      · rcases ih (idx + 1) with h | h
        · left; simp only [user_index, if_neg ha, h]
        · right
          simp only [user_index, if_neg ha, List.length_cons]
          omega

theorem get_user_id_range (s : MState) (addr : Nat) :
    get_user_id s addr = 0 ∨
      (1 ≤ get_user_id s addr ∧ get_user_id s addr ≤ s.users.length) := by
  rcases user_index_range addr s.users 1 with h | h
  · left; exact h
  · right; unfold get_user_id; omega

/-- Running `change_user_role` on an unregistered address: explicit result. -/
theorem change_user_role_new (s : MState) (addr : Nat) (nr : UserRole)
    (h0 : get_user_id s addr = 0)
    (hnone : s.user_roles (s.users.length + 1) = UserRole.None) :
    change_user_role s addr nr =
      { s with users := s.users ++ [addr],
               user_roles := upd s.user_roles (s.users.length + 1) nr,
               num_board_members :=
                 s.num_board_members + (if nr = UserRole.BoardMember then 1 else 0),
               num_proposers :=
                 s.num_proposers + (if nr = UserRole.Proposer then 1 else 0) } := by
  cases nr <;>
    simp [change_user_role, get_or_create_user, set_user_id_to_role,
      get_user_id_to_role, h0, hnone]

/-- Running `change_user_role` on a registered address: explicit result. -/
theorem change_user_role_old (s : MState) (addr : Nat) (nr : UserRole)
    (h0 : ¬ get_user_id s addr = 0) :
    change_user_role s addr nr =
      { s with user_roles := upd s.user_roles (get_user_id s addr) nr,
               num_board_members :=
                 if s.user_roles (get_user_id s addr) = UserRole.BoardMember then
                   (if nr ≠ UserRole.BoardMember then s.num_board_members - 1
                    else s.num_board_members)
                 else
                   (if nr = UserRole.BoardMember then s.num_board_members + 1
                    else s.num_board_members),
               num_proposers :=
                 if s.user_roles (get_user_id s addr) = UserRole.Proposer then
                   (if nr ≠ UserRole.Proposer then s.num_proposers - 1
                    else s.num_proposers)
                 else
                   (if nr = UserRole.Proposer then s.num_proposers + 1
                    else s.num_proposers) } := by
  rcases ho : s.user_roles (get_user_id s addr) <;> cases nr <;>
    simp [change_user_role, get_or_create_user, set_user_id_to_role,
      get_user_id_to_role, h0, ho]

/-- The mutator `change_user_role` keeps the counters in sync and touches only the
registry, roles and counters. -/
theorem change_user_role_inv (s : MState) (addr : Nat) (nr : UserRole) (h : Inv s) :
    Inv (change_user_role s addr nr) ∧
    (change_user_role s addr nr).actions = s.actions ∧
    (change_user_role s addr nr).action_signers = s.action_signers ∧
    (change_user_role s addr nr).amount_staked = s.amount_staked ∧
    (change_user_role s addr nr).slash_amount = s.slash_amount ∧
    (change_user_role s addr nr).required_stake_amount = s.required_stake_amount ∧
    (change_user_role s addr nr).quorum = s.quorum := by
  obtain ⟨h1, h2, h3, h4⟩ := h
  simp only [count_role] at h1 h2
  by_cases h0 : get_user_id s addr = 0
  · have hnone : s.user_roles (s.users.length + 1) = UserRole.None :=
      h3 _ (Nat.lt_succ_self _)
    rw [change_user_role_new s addr nr h0 hnone]
    have hbm := count_upd_new s.user_roles UserRole.BoardMember nr s.users.length
    have hp := count_upd_new s.user_roles UserRole.Proposer nr s.users.length
    refine ⟨⟨?_, ?_, ?_, ?_⟩, rfl, rfl, rfl, rfl, rfl, rfl⟩
    · simp only [count_role, List.length_append, List.length_singleton]
      rw [hbm]; omega
    · simp only [count_role, List.length_append, List.length_singleton]
      rw [hp]; omega
    · intro j hj
      simp only [List.length_append, List.length_singleton] at hj
      have hne : j ≠ s.users.length + 1 := by omega
      simp only [upd, if_neg hne]
      exact h3 j (by omega)
    · exact h4
  · rw [change_user_role_old s addr nr h0]
    rcases get_user_id_range s addr with hr | hr
    · exact absurd hr h0
    have hbm := count_upd_in s.user_roles UserRole.BoardMember nr
      (get_user_id s addr) s.users.length hr.1 hr.2
    have hp := count_upd_in s.user_roles UserRole.Proposer nr
      (get_user_id s addr) s.users.length hr.1 hr.2
    refine ⟨⟨?_, ?_, ?_, ?_⟩, rfl, rfl, rfl, rfl, rfl, rfl⟩
    · simp only [count_role]
      rcases ho : s.user_roles (get_user_id s addr) <;> cases nr <;>
        simp only [ho] at hbm <;> simp_all <;> omega
    · simp only [count_role]
      rcases ho : s.user_roles (get_user_id s addr) <;> cases nr <;>
        simp only [ho] at hp <;> simp_all <;> omega
    · intro j hj
      have hj2 : s.users.length < j := hj
      have hne : j ≠ get_user_id s addr := by omega
      simp only [upd, if_neg hne]
      exact h3 j hj2
    · exact h4

theorem set_action_signer_ids_inv (s : MState) (i : Nat) (l : List Nat)
    (h : Inv s) (hle : l = [] ∨ i ≤ s.actions.length) :
    Inv (set_action_signer_ids s i l) := by
  obtain ⟨h1, h2, h3, h4⟩ := h
  refine ⟨h1, h2, h3, ?_⟩
  intro j hj
  have hj2 : s.actions.length < j := hj
  simp only [set_action_signer_ids]
  by_cases hij : j = i
  · subst hij
    rcases hle with hl | hl
    · simp [hl]
    · omega
  · simp only [if_neg hij]
    exact h4 j hj2

theorem clear_action_inv (s : MState) (i : Nat) (h : Inv s) :
    Inv (clear_action s i) := by
  obtain ⟨h1, h2, h3, h4⟩ := h
  unfold clear_action
  by_cases hi : i = 0
  · simp only [hi, if_pos rfl]
    exact set_action_signer_ids_inv s 0 [] ⟨h1, h2, h3, h4⟩ (Or.inl rfl)
  · simp only [if_neg hi]
    refine set_action_signer_ids_inv _ i [] ⟨h1, h2, h3, ?_⟩ (Or.inl rfl)
    intro j hj
    have hj2 : (s.actions.set (i - 1) Option.none).length < j := hj
    rw [List.length_set] at hj2
    exact h4 j hj2

/-- Cleanup `clear_action` does not touch the registry, roles, counters, stakes or
configuration. -/
theorem clear_action_fields (s : MState) (i : Nat) :
    (clear_action s i).users = s.users ∧
    (clear_action s i).user_roles = s.user_roles ∧
    (clear_action s i).num_board_members = s.num_board_members ∧
    (clear_action s i).num_proposers = s.num_proposers ∧
    (clear_action s i).quorum = s.quorum ∧
    (clear_action s i).required_stake_amount = s.required_stake_amount ∧
    (clear_action s i).slash_amount = s.slash_amount ∧
    (clear_action s i).amount_staked = s.amount_staked ∧
    (clear_action s i).pause_status = s.pause_status := by
  unfold clear_action set_action_signer_ids
  by_cases hi : i = 0 <;> simp [hi]

/-- The `init_users` loop, run without duplicates, registers exactly the
given addresses as board members and leaves everything else alone. -/
theorem init_users_spec :
    ∀ (l : List Nat) (s : MState),
      (∀ j, s.users.length < j → s.user_roles j = UserRole.None) →
      (init_users s l).2 = false →
      ((init_users s l).1.users.length = s.users.length + l.length ∧
       count_role (init_users s l).1 UserRole.BoardMember
         = count_role s UserRole.BoardMember + l.length ∧
       count_role (init_users s l).1 UserRole.Proposer
         = count_role s UserRole.Proposer ∧
       (∀ j, (init_users s l).1.users.length < j →
          (init_users s l).1.user_roles j = UserRole.None) ∧
       (init_users s l).1.actions = s.actions ∧
       (init_users s l).1.action_signers = s.action_signers ∧
       (init_users s l).1.num_proposers = s.num_proposers) := by
  intro l
  induction l with
  | nil =>
      intro s h3 _
      exact ⟨rfl, rfl, rfl, h3, rfl, rfl, rfl⟩
  | cons addr rest ih =>
      intro s h3 hdup
      simp only [init_users] at hdup ⊢
      rw [Bool.or_eq_false_iff] at hdup
      obtain ⟨hdrest, hnew⟩ := hdup
      have h0 : get_user_id s addr = 0 := by
        by_contra hc
        simp [hc] at hnew
      have hnone : s.user_roles (s.users.length + 1) = UserRole.None :=
        h3 _ (Nat.lt_succ_self _)
      have hgoc : get_or_create_user s addr
          = ({ s with users := s.users ++ [addr] }, s.users.length + 1) := by
        simp [get_or_create_user, h0]
      rw [hgoc] at hdrest ⊢
      set s2 : MState :=
        set_user_id_to_role { s with users := s.users ++ [addr] }
          (s.users.length + 1) UserRole.BoardMember with hs2
      have h3' : ∀ j, s2.users.length < j → s2.user_roles j = UserRole.None := by
        intro j hj
        have hj2 : (s.users ++ [addr]).length < j := hj
        simp only [List.length_append, List.length_singleton] at hj2
        show upd s.user_roles (s.users.length + 1) UserRole.BoardMember j = UserRole.None
        have hne : j ≠ s.users.length + 1 := by omega
        simp only [upd, if_neg hne]
        exact h3 j (by omega)
      obtain ⟨g1, g2, g3, g4, g5, g6, g7⟩ := ih s2 h3' hdrest
      have hlen2 : s2.users.length = s.users.length + 1 := by
        simp [hs2, set_user_id_to_role]
      have hcnt2bm : count_role s2 UserRole.BoardMember
          = count_role s UserRole.BoardMember + 1 := by
        show count_role_up_to (upd s.user_roles (s.users.length + 1) UserRole.BoardMember)
            UserRole.BoardMember (s.users ++ [addr]).length
          = count_role_up_to s.user_roles UserRole.BoardMember s.users.length + 1
        simp only [List.length_append, List.length_singleton]
        rw [count_upd_new]
        simp
      have hcnt2p : count_role s2 UserRole.Proposer = count_role s UserRole.Proposer := by
        show count_role_up_to (upd s.user_roles (s.users.length + 1) UserRole.BoardMember)
            UserRole.Proposer (s.users ++ [addr]).length
          = count_role_up_to s.user_roles UserRole.Proposer s.users.length
        simp only [List.length_append, List.length_singleton]
        rw [count_upd_new]
        simp
      refine ⟨?_, ?_, ?_, g4, g5, g6, g7⟩
      · rw [g1, hlen2]; simp; omega
      · rw [g2, hcnt2bm]; simp; omega
      · rw [g3, hcnt2p]

/-- A successful `init` establishes the invariant. -/
theorem exec_init_inv (rs sa q : Nat) (board : List Nat) (s : MState)
    (h : exec_init rs sa q board = .ok s) : Inv s := by
  unfold exec_init at h
  by_cases hb : board = []
  · simp [hb] at h
  · simp only [if_neg hb] at h
    by_cases hq : q ≤ board.length
    · simp only [if_neg (not_not_intro hq)] at h
      by_cases hdup0 : (init_users { initial_state with quorum := q } board).2 = true
      case pos => rw [if_pos hdup0] at h; cases h
      case neg =>
        rw [if_neg hdup0] at h
        have hdup : (init_users { initial_state with quorum := q } board).2 = false := by
          revert hdup0
          cases (init_users { initial_state with quorum := q } board).2 <;> simp
        by_cases hsl : sa ≤ rs
        · rw [if_pos hsl] at h
          injection h with h
          subst h
          have h3 : ∀ j, ({ initial_state with quorum := q } : MState).users.length < j →
              ({ initial_state with quorum := q } : MState).user_roles j = UserRole.None := by
            intro j _; rfl
          obtain ⟨g1, g2, g3, g4, g5, g6, g7⟩ :=
            init_users_spec board { initial_state with quorum := q } h3 hdup
          refine ⟨?_, ?_, ?_, ?_⟩
          · show board.length
              = count_role (init_users { initial_state with quorum := q } board).1
                  UserRole.BoardMember
            rw [g2]
            have hz : count_role { initial_state with quorum := q } UserRole.BoardMember = 0 :=
              rfl
            omega
          · show (init_users { initial_state with quorum := q } board).1.num_proposers
              = count_role (init_users { initial_state with quorum := q } board).1
                  UserRole.Proposer
            rw [g3, g7]
            rfl
          · intro j hj
            exact g4 j hj
          · intro j hj
            show (init_users { initial_state with quorum := q } board).1.action_signers j = []
            rw [g6]
            rfl
        · rw [if_neg hsl] at h
          cases h
    · simp [hq] at h

/-- An occupied action slot has an id within the log. -/
theorem pending_le (s : MState) (i : Nat) (h : action_is_pending s i = true) :
    1 ≤ i ∧ i ≤ s.actions.length := by
  unfold action_is_pending action_item at h
  by_cases hi : i = 0
  · simp [hi] at h
  · refine ⟨by omega, ?_⟩
    by_cases hlt : i - 1 < s.actions.length
    · omega
    · have hnone : s.actions[i - 1]? = Option.none := by
        rw [List.getElem?_eq_none]
        omega
      simp [hi, hnone] at h

/-- Every successful operation preserves the invariant. -/
theorem exec_op_inv (o : Op) (s s' : MState) (h : Inv s) (hx : exec_op o s = .ok s') :
    Inv s' := by
  obtain ⟨h1, h2, h3, h4⟩ := h
  cases o with
  | stake c p =>
      simp only [exec_op, exec_stake] at hx
      split_ifs at hx
      · cases hx
        exact ⟨h1, h2, h3, h4⟩
  | unstake c a =>
      simp only [exec_op, exec_unstake] at hx
      split_ifs at hx
      · cases hx
        exact ⟨h1, h2, h3, h4⟩
  | sign c i =>
      simp only [exec_op, exec_sign] at hx
      split_ifs at hx with hpend hrole hstake hmem
      all_goals cases hx
      all_goals
        exact set_action_signer_ids_inv s i _ ⟨h1, h2, h3, h4⟩
          (Or.inr (pending_le s i hpend).2)
  | unsign c i =>
      simp only [exec_op, exec_unsign] at hx
      split_ifs at hx with hpend hrole hstake
      all_goals cases hx
      all_goals
        exact set_action_signer_ids_inv s i _ ⟨h1, h2, h3, h4⟩
          (Or.inr (pending_le s i hpend).2)
  | propose c a =>
      simp only [exec_op, propose_action] at hx
      split_ifs at hx with hprop hsign
      all_goals simp only [Except.map] at hx
      all_goals cases hx
      · refine set_action_signer_ids_inv _ _ _ ⟨h1, h2, h3, ?_⟩ (Or.inr ?_)
        · intro j hj
          have hj2 : (s.actions ++ [some a]).length < j := hj
          simp only [List.length_append, List.length_singleton] at hj2
          exact h4 j (by omega)
        · show s.actions.length + 1 ≤ (s.actions ++ [some a]).length
          simp
      · refine ⟨h1, h2, h3, ?_⟩
        intro j hj
        have hj2 : (s.actions ++ [some a]).length < j := hj
        simp only [List.length_append, List.length_singleton] at hj2
        exact h4 j (by omega)
  | performAction c i =>
      simp only [exec_op, exec_perform_action] at hx
      split_ifs at hx with hperm hreach
      simp only [perform_action] at hx
      rcases hitem : action_item s i with _ | a
      · simp only [hitem] at hx
        cases hx
      · simp only [hitem] at hx
        split_ifs at hx with hpause
        all_goals
          have hinvc : Inv (clear_action s i) :=
            clear_action_inv s i ⟨h1, h2, h3, h4⟩
          cases a with
          | Nothing =>
              simp only [perform_action_effect] at hx
              cases hx; exact hinvc
          | AddBoardMember addr =>
              simp only [perform_action_effect] at hx
              cases hx
              exact (change_user_role_inv _ addr UserRole.BoardMember hinvc).1
          | AddProposer addr =>
              simp only [perform_action_effect] at hx
              split_ifs at hx
              all_goals cases hx
              exact (change_user_role_inv _ addr UserRole.Proposer hinvc).1
          | RemoveUser addr =>
              simp only [perform_action_effect] at hx
              split_ifs at hx
              all_goals cases hx
              exact (change_user_role_inv _ addr UserRole.None hinvc).1
          | SlashUser addr =>
              simp only [perform_action_effect] at hx
              split_ifs at hx
              all_goals cases hx
              obtain ⟨k1, k2, k3, k4⟩ :=
                (change_user_role_inv (clear_action s i) addr UserRole.None hinvc).1
              exact ⟨k1, k2, k3, k4⟩
          | ChangeQuorum q =>
              simp only [perform_action_effect] at hx
              split_ifs at hx
              all_goals cases hx
              obtain ⟨k1, k2, k3, k4⟩ := hinvc
              exact ⟨k1, k2, k3, k4⟩
          | SCDeploy amt code =>
              simp only [perform_action_effect] at hx
              cases hx; exact hinvc
          | ExternalCall payload =>
              simp only [perform_action_effect] at hx
              cases hx; exact hinvc
  | discardAction c i =>
      simp only [exec_op, exec_discard_action] at hx
      split_ifs at hx
      all_goals cases hx
      exact clear_action_inv s i ⟨h1, h2, h3, h4⟩
  | pause =>
      simp only [exec_op, exec_pause, Except.ok.injEq] at hx
      cases hx
      exact ⟨h1, h2, h3, h4⟩
  | unpause =>
      simp only [exec_op, exec_unpause, Except.ok.injEq] at hx
      cases hx
      exact ⟨h1, h2, h3, h4⟩

/-- Every reachable state satisfies the invariant. -/
theorem reachable_inv (s : MState) (h : Reachable s) : Inv s := by
  induction h with
  | init rs sa q b s hx => exact exec_init_inv rs sa q b s hx
  | step o s s' _ hx ih => exact exec_op_inv o s s' ih hx

/-- C1 (amended): `getActionValidSignerCount` counts exactly the raw signers
whose current role has signing rights; the staked balances are not consulted
at quorum-evaluation time (the count is invariant under any change of the
stake ledger); and `quorumReached` holds iff this count is at least the
stored quorum. -/
theorem claim_C1_valid_signer_count (s : MState) (action_id : Nat) (f : Nat → Nat) :
    get_action_valid_signer_count { s with amount_staked := f } action_id
        = get_action_valid_signer_count s action_id ∧
    (quorum_reached s action_id = true ↔
        s.quorum ≤ get_action_valid_signer_count s action_id) ∧
    get_action_valid_signer_count s action_id
        = ((action_signer_ids s action_id).filter
            (fun sid => (get_user_id_to_role s sid).can_sign)).length := by
  refine ⟨rfl, ?_, ?_⟩
  · simp [quorum_reached]
  · simp [get_action_valid_signer_count, List.countP_eq_length_filter]

/-- C1 counterexample: in the reachable state obtained by `init(required_stake
= 100, slash = 0, quorum = 1, board = [5])` followed by a proposal from
address 5, user 1 (address 5) has signed, has a signing role, but has staked
0 < 100; the claim predicts the signature is not counted, yet
`getActionValidSignerCount` counts it (and the action even reaches quorum). -/
theorem claim_C1_counterexample :
    action_signer_ids
        (run_op (Op.propose 5 (MAction.ChangeQuorum 1))
          (state_of (exec_init 100 0 1 [5]))) 1 = [1] ∧
    (get_user_id_to_role
        (run_op (Op.propose 5 (MAction.ChangeQuorum 1))
          (state_of (exec_init 100 0 1 [5]))) 1).can_sign = true ∧
    (run_op (Op.propose 5 (MAction.ChangeQuorum 1))
        (state_of (exec_init 100 0 1 [5]))).amount_staked
        (get_user_address
          (run_op (Op.propose 5 (MAction.ChangeQuorum 1))
            (state_of (exec_init 100 0 1 [5]))) 1)
      < (run_op (Op.propose 5 (MAction.ChangeQuorum 1))
          (state_of (exec_init 100 0 1 [5]))).required_stake_amount ∧
    get_action_valid_signer_count
        (run_op (Op.propose 5 (MAction.ChangeQuorum 1))
          (state_of (exec_init 100 0 1 [5]))) 1 = 1 ∧
    (action_signer_ids
        (run_op (Op.propose 5 (MAction.ChangeQuorum 1))
          (state_of (exec_init 100 0 1 [5]))) 1).countP
        (fun sid =>
          (get_user_id_to_role
            (run_op (Op.propose 5 (MAction.ChangeQuorum 1))
              (state_of (exec_init 100 0 1 [5]))) sid).can_sign
          && decide
              ((run_op (Op.propose 5 (MAction.ChangeQuorum 1))
                  (state_of (exec_init 100 0 1 [5]))).required_stake_amount
                ≤ (run_op (Op.propose 5 (MAction.ChangeQuorum 1))
                    (state_of (exec_init 100 0 1 [5]))).amount_staked
                    (get_user_address
                      (run_op (Op.propose 5 (MAction.ChangeQuorum 1))
                        (state_of (exec_init 100 0 1 [5]))) sid))) = 0 ∧
    quorum_reached
        (run_op (Op.propose 5 (MAction.ChangeQuorum 1))
          (state_of (exec_init 100 0 1 [5]))) 1 = true := by
  decide

/-- C2: in every state reachable by successful operations from a successful
`init`, `num_board_members` equals the number of registered users whose
current role is BoardMember, and `num_proposers` the number whose current
role is Proposer. -/
theorem claim_C2_counters_match (s : MState) (h : Reachable s) :
    s.num_board_members = count_role s UserRole.BoardMember ∧
    s.num_proposers = count_role s UserRole.Proposer := by
  obtain ⟨h1, h2, _, _⟩ := reachable_inv s h
  exact ⟨h1, h2⟩

theorem claim_C2_witness :
    (state_of (exec_init 100 50 2 [5, 6, 7])).num_board_members
        = count_role (state_of (exec_init 100 50 2 [5, 6, 7])) UserRole.BoardMember ∧
    (state_of (exec_init 100 50 2 [5, 6, 7])).num_proposers
        = count_role (state_of (exec_init 100 50 2 [5, 6, 7])) UserRole.Proposer :=
  claim_C2_counters_match _ (Reachable.init 100 50 2 [5, 6, 7] _ rfl)

/-- C10: `init` succeeds only when `slash_amount ≤ required_stake`. -/
theorem claim_C10_init_requires_slash_le_stake
    (required_stake slash_amount quorum : Nat) (board : List Nat) (s : MState)
    (h : exec_init required_stake slash_amount quorum board = .ok s) :
    slash_amount ≤ required_stake := by
  unfold exec_init at h
  by_cases hb : board = []
  · simp [hb] at h
  · simp only [if_neg hb] at h
    by_cases hq : quorum ≤ board.length
    · simp only [if_neg (not_not_intro hq)] at h
      by_cases hdup0 : (init_users { initial_state with quorum := quorum } board).2 = true
      · rw [if_pos hdup0] at h
        cases h
      · rw [if_neg hdup0] at h
        by_cases hsl : slash_amount ≤ required_stake
        · exact hsl
        · rw [if_neg hsl] at h
          cases h
    · simp [hq] at h

theorem claim_C10_witness : (50 : Nat) ≤ 100 :=
  claim_C10_init_requires_slash_le_stake 100 50 1 [5]
    (state_of (exec_init 100 50 1 [5])) rfl

/-- The mutator `change_user_role` only touches the registry, roles and counters. -/
theorem change_user_role_fields (s : MState) (addr : Nat) (nr : UserRole) :
    (change_user_role s addr nr).amount_staked = s.amount_staked ∧
    (change_user_role s addr nr).slash_amount = s.slash_amount ∧
    (change_user_role s addr nr).required_stake_amount = s.required_stake_amount ∧
    (change_user_role s addr nr).quorum = s.quorum ∧
    (change_user_role s addr nr).actions = s.actions ∧
    (change_user_role s addr nr).action_signers = s.action_signers ∧
    (change_user_role s addr nr).pause_status = s.pause_status := by
  by_cases h0 : get_user_id s addr = 0
  · rcases ho : s.user_roles (s.users.length + 1) <;> cases nr <;>
      simp [change_user_role, get_or_create_user, set_user_id_to_role,
        get_user_id_to_role, h0, ho]
  · rcases ho : s.user_roles (get_user_id s addr) <;> cases nr <;>
      simp [change_user_role, get_or_create_user, set_user_id_to_role,
        get_user_id_to_role, h0, ho]

/-- C3: operations are atomic under the host revert semantics; in particular
executing a pending `ChangeQuorum q` with `q` above the board size signals an
error, and the observed post-state keeps the quorum unchanged and the action
slot (with its signer set) still pending, even though `clear_action` runs
before the invariant check inside the attempted execution. -/
theorem claim_C3_change_quorum_atomic (s : MState) (caller action_id q : Nat)
    (hpend : action_item s action_id = some (MAction.ChangeQuorum q))
    (hq : s.num_board_members < q) :
    (∃ e, exec_op (Op.performAction caller action_id) s = .error e) ∧
    run_op (Op.performAction caller action_id) s = s ∧
    action_item (run_op (Op.performAction caller action_id) s) action_id
        = some (MAction.ChangeQuorum q) ∧
    (run_op (Op.performAction caller action_id) s).quorum = s.quorum := by
  have herr : ∃ e, exec_op (Op.performAction caller action_id) s = .error e := by
    simp only [exec_op, exec_perform_action]
    by_cases hperm :
        (get_user_id_to_role s (get_user_id s caller)).can_perform_action = true
    · rw [if_pos hperm]
      by_cases hreach : quorum_reached s action_id = true
      · rw [if_pos hreach]
        simp only [perform_action, hpend]
        by_cases hpause :
            s.pause_status = true ∧ ¬ (MAction.ChangeQuorum q).is_slash_user = true
        · rw [if_pos hpause]
          exact ⟨_, rfl⟩
        · rw [if_neg hpause]
          simp only [perform_action_effect]
          have hnb : (clear_action s action_id).num_board_members
              = s.num_board_members := (clear_action_fields s action_id).2.2.1
          rw [if_neg (by rw [hnb]; omega :
            ¬ q ≤ (clear_action s action_id).num_board_members)]
          exact ⟨_, rfl⟩
      · rw [if_neg hreach]
        exact ⟨_, rfl⟩
    · rw [if_neg hperm]
      exact ⟨_, rfl⟩
  obtain ⟨e, he⟩ := herr
  have hrun : run_op (Op.performAction caller action_id) s = s := by
    unfold run_op
    rw [he]
  refine ⟨⟨e, he⟩, hrun, ?_, ?_⟩
  · rw [hrun]
    exact hpend
  · rw [hrun]

theorem claim_C3_witness :
    (action_item
        (run_op (Op.propose 5 (MAction.ChangeQuorum 4)) (state_of (exec_init 0 0 1 [5]))) 1
        = some (MAction.ChangeQuorum 4) ∧
      (run_op (Op.propose 5 (MAction.ChangeQuorum 4))
          (state_of (exec_init 0 0 1 [5]))).num_board_members < 4) ∧
    ((∃ e, exec_op (Op.performAction 5 1)
        (run_op (Op.propose 5 (MAction.ChangeQuorum 4)) (state_of (exec_init 0 0 1 [5])))
        = .error e) ∧
     run_op (Op.performAction 5 1)
        (run_op (Op.propose 5 (MAction.ChangeQuorum 4)) (state_of (exec_init 0 0 1 [5])))
        = run_op (Op.propose 5 (MAction.ChangeQuorum 4)) (state_of (exec_init 0 0 1 [5])) ∧
     action_item
        (run_op (Op.performAction 5 1)
          (run_op (Op.propose 5 (MAction.ChangeQuorum 4)) (state_of (exec_init 0 0 1 [5])))) 1
        = some (MAction.ChangeQuorum 4) ∧
     (run_op (Op.performAction 5 1)
        (run_op (Op.propose 5 (MAction.ChangeQuorum 4))
          (state_of (exec_init 0 0 1 [5])))).quorum
        = (run_op (Op.propose 5 (MAction.ChangeQuorum 4))
            (state_of (exec_init 0 0 1 [5]))).quorum) :=
  ⟨⟨by decide, by decide⟩,
    claim_C3_change_quorum_atomic
      (run_op (Op.propose 5 (MAction.ChangeQuorum 4)) (state_of (exec_init 0 0 1 [5])))
      5 1 4 (by decide) (by decide)⟩

/-- C4: executing a pending `SlashUser` action either succeeds, in which case
the target provably had at least `slash_amount` staked and the stake is
reduced by exactly `slash_amount` (no wrap-around below zero), or signals an
error, in which case the observed state is the unchanged pre-state. -/
theorem claim_C4_slash_never_negative (s : MState) (caller action_id addr : Nat)
    (hpend : action_item s action_id = some (MAction.SlashUser addr)) :
    (∀ s', exec_op (Op.performAction caller action_id) s = .ok s' →
        s.slash_amount ≤ s.amount_staked addr ∧
        s'.amount_staked addr + s.slash_amount = s.amount_staked addr) ∧
    (∀ e, exec_op (Op.performAction caller action_id) s = .error e →
        run_op (Op.performAction caller action_id) s = s) := by
  constructor
  · intro s' hx
    simp only [exec_op, exec_perform_action] at hx
    split_ifs at hx with hperm hreach
    simp only [perform_action, hpend] at hx
    split_ifs at hx with hpause
    simp only [perform_action_effect] at hx
    split_ifs at hx with hz hq2 hsl
    cases hx
    obtain ⟨_, _, _, _, _, _, c7, c8, _⟩ := clear_action_fields s action_id
    obtain ⟨g1, g2, _⟩ :=
      change_user_role_fields (clear_action s action_id) addr UserRole.None
    have e1 : (change_user_role (clear_action s action_id) addr
        UserRole.None).slash_amount = s.slash_amount := by rw [g2, c7]
    have e2 : (change_user_role (clear_action s action_id) addr
        UserRole.None).amount_staked addr = s.amount_staked addr := by rw [g1, c8]
    constructor
    · rw [e1, e2] at hsl
      exact hsl
    · simp only []
      simp
      omega
  · intro e he
    unfold run_op
    rw [he]

theorem claim_C4_witness :
    (action_item
        (run_op (Op.propose 5 (MAction.SlashUser 6)) (state_of (exec_init 0 0 1 [5, 6]))) 1
        = some (MAction.SlashUser 6)) ∧
    (∀ s', exec_op (Op.performAction 5 1)
        (run_op (Op.propose 5 (MAction.SlashUser 6)) (state_of (exec_init 0 0 1 [5, 6])))
        = .ok s' →
      (run_op (Op.propose 5 (MAction.SlashUser 6))
          (state_of (exec_init 0 0 1 [5, 6]))).slash_amount
        ≤ (run_op (Op.propose 5 (MAction.SlashUser 6))
            (state_of (exec_init 0 0 1 [5, 6]))).amount_staked 6 ∧
      s'.amount_staked 6
          + (run_op (Op.propose 5 (MAction.SlashUser 6))
              (state_of (exec_init 0 0 1 [5, 6]))).slash_amount
        = (run_op (Op.propose 5 (MAction.SlashUser 6))
            (state_of (exec_init 0 0 1 [5, 6]))).amount_staked 6) :=
  ⟨by decide,
    (claim_C4_slash_never_negative
      (run_op (Op.propose 5 (MAction.SlashUser 6)) (state_of (exec_init 0 0 1 [5, 6])))
      5 1 6 (by decide)).1⟩

theorem signer_ids_set (s : MState) (i : Nat) (l : List Nat) :
    action_signer_ids (set_action_signer_ids s i l) i = l := by
  simp [action_signer_ids, set_action_signer_ids]

theorem set_action_signer_ids_self (s : MState) (i : Nat) :
    set_action_signer_ids s i (action_signer_ids s i) = s := by
  unfold set_action_signer_ids action_signer_ids
  have h : (fun j => if j = i then s.action_signers i else s.action_signers j)
      = s.action_signers := by
    funext j
    by_cases hj : j = i <;> simp [hj]
  rw [h]

theorem set_action_signer_ids_twice (s : MState) (i : Nat) (l l2 : List Nat) :
    set_action_signer_ids (set_action_signer_ids s i l) i l2
      = set_action_signer_ids s i l2 := by
  unfold set_action_signer_ids
  congr 1
  funext j
  by_cases hj : j = i <;> simp [hj]

theorem find_position_none (l : List Nat) (t : Nat) (h : t ∉ l) :
    find_position l t = Option.none := by
  induction l with
  | nil => rfl
  | cons x rest ih =>
      simp only [List.mem_cons, not_or] at h
      have hne : ¬ x = t := fun hxt => h.1 hxt.symm
      rw [find_position, if_neg hne, ih h.2]
      rfl

/-- C6: for a pending action and an eligible caller (signing role, enough
stake), signing twice yields the very state produced by signing once, and
un-signing while not in the signer set succeeds and leaves the state (hence
the signer set) unchanged. -/
theorem claim_C6_sign_idempotent_unsign_noop (s : MState) (caller action_id : Nat)
    (hpend : action_is_pending s action_id = true)
    (hrole : (get_user_id_to_role s (get_user_id s caller)).can_sign = true)
    (hstake : has_enough_stake s caller = true) :
    (∃ s1, exec_sign s caller action_id = .ok s1 ∧
        exec_sign s1 caller action_id = .ok s1) ∧
    (get_user_id s caller ∉ action_signer_ids s action_id →
        exec_unsign s caller action_id = .ok s) := by
  constructor
  · have h1 : exec_sign s caller action_id
        = .ok (set_action_signer_ids s action_id
            (if get_user_id s caller ∈ action_signer_ids s action_id
             then action_signer_ids s action_id
             else action_signer_ids s action_id ++ [get_user_id s caller])) := by
      simp only [exec_sign]
      rw [if_pos hpend, if_pos hrole, if_pos hstake]
    refine ⟨_, h1, ?_⟩
    have hmem : get_user_id s caller ∈
        (if get_user_id s caller ∈ action_signer_ids s action_id
         then action_signer_ids s action_id
         else action_signer_ids s action_id ++ [get_user_id s caller]) := by
      by_cases hc : get_user_id s caller ∈ action_signer_ids s action_id
      · rw [if_pos hc]; exact hc
      · rw [if_neg hc]
        exact List.mem_append_right _ (List.mem_singleton_self _)
    have hpend1 : action_is_pending
        (set_action_signer_ids s action_id
          (if get_user_id s caller ∈ action_signer_ids s action_id
           then action_signer_ids s action_id
           else action_signer_ids s action_id ++ [get_user_id s caller]))
        action_id = true := hpend
    have hrole1 : (get_user_id_to_role
        (set_action_signer_ids s action_id
          (if get_user_id s caller ∈ action_signer_ids s action_id
           then action_signer_ids s action_id
           else action_signer_ids s action_id ++ [get_user_id s caller]))
        (get_user_id
          (set_action_signer_ids s action_id
            (if get_user_id s caller ∈ action_signer_ids s action_id
             then action_signer_ids s action_id
             else action_signer_ids s action_id ++ [get_user_id s caller]))
          caller)).can_sign = true := hrole
    have hstake1 : has_enough_stake
        (set_action_signer_ids s action_id
          (if get_user_id s caller ∈ action_signer_ids s action_id
           then action_signer_ids s action_id
           else action_signer_ids s action_id ++ [get_user_id s caller]))
        caller = true := hstake
    simp only [exec_sign]
    rw [if_pos hpend1, if_pos hrole1, if_pos hstake1]
    have hids : get_user_id
        (set_action_signer_ids s action_id
          (if get_user_id s caller ∈ action_signer_ids s action_id
           then action_signer_ids s action_id
           else action_signer_ids s action_id ++ [get_user_id s caller]))
        caller = get_user_id s caller := rfl
    rw [hids, signer_ids_set, if_pos hmem, set_action_signer_ids_twice]
  · intro hnot
    have hfp : find_position (action_signer_ids s action_id) (get_user_id s caller)
        = Option.none := find_position_none _ _ hnot
    simp only [exec_unsign]
    rw [if_pos hpend, if_pos hrole, if_pos hstake, hfp]
    show Except.ok (set_action_signer_ids s action_id (action_signer_ids s action_id))
        = Except.ok s
    rw [set_action_signer_ids_self]

theorem claim_C6_witness :
    (∃ s1, exec_sign
        (run_op (Op.propose 5 (MAction.ChangeQuorum 1)) (state_of (exec_init 0 0 1 [5, 6])))
        6 1 = .ok s1 ∧ exec_sign s1 6 1 = .ok s1) ∧
    exec_unsign
        (run_op (Op.propose 5 (MAction.ChangeQuorum 1)) (state_of (exec_init 0 0 1 [5, 6])))
        6 1
      = .ok (run_op (Op.propose 5 (MAction.ChangeQuorum 1))
          (state_of (exec_init 0 0 1 [5, 6]))) :=
  ⟨(claim_C6_sign_idempotent_unsign_noop
      (run_op (Op.propose 5 (MAction.ChangeQuorum 1)) (state_of (exec_init 0 0 1 [5, 6])))
      6 1 (by decide) (by decide) (by decide)).1,
   (claim_C6_sign_idempotent_unsign_noop
      (run_op (Op.propose 5 (MAction.ChangeQuorum 1)) (state_of (exec_init 0 0 1 [5, 6])))
      6 1 (by decide) (by decide) (by decide)).2 (by decide)⟩

theorem can_propose_iff (r : UserRole) :
    r.can_propose = true ↔ (r = UserRole.Proposer ∨ r = UserRole.BoardMember) := by
  cases r <;> simp [UserRole.can_propose]

theorem clear_action_not_pending (s : MState) (i : Nat) :
    action_is_pending (clear_action s i) i = false := by
  unfold action_is_pending action_item clear_action set_action_signer_ids
  by_cases hi : i = 0
  · simp [hi]
  · simp only [if_neg hi]
    by_cases hlt : i - 1 < s.actions.length
    · have hset : (s.actions.set (i - 1) (Option.none : Option MAction))[i - 1]?
          = some Option.none := by
        simp [List.getElem?_set_self, hlt]
      simp [hset]
    · have hset : (s.actions.set (i - 1) (Option.none : Option MAction))[i - 1]?
          = Option.none := by
        rw [List.getElem?_eq_none]
        rw [List.length_set]
        omega
      simp [hset]

theorem clear_action_signers (s : MState) (i : Nat) :
    action_signer_ids (clear_action s i) i = [] := by
  unfold clear_action action_signer_ids set_action_signer_ids
  by_cases hi : i = 0 <;> simp [hi]

/-- C7: `discardAction` succeeds exactly when the caller currently holds a
role that may discard (Proposer or BoardMember) and the currently-valid
signer count is zero (stale signatures do not block); on success both the
action slot and its signer set are cleared. -/
theorem claim_C7_discard_iff (s : MState) (caller action_id : Nat) :
    ((∃ s', exec_discard_action s caller action_id = .ok s') ↔
      ((get_user_id_to_role s (get_user_id s caller) = UserRole.Proposer ∨
        get_user_id_to_role s (get_user_id s caller) = UserRole.BoardMember) ∧
       get_action_valid_signer_count s action_id = 0)) ∧
    (∀ s', exec_discard_action s caller action_id = .ok s' →
      action_is_pending s' action_id = false ∧ action_signer_ids s' action_id = []) := by
  constructor
  · constructor
    · rintro ⟨s', hx⟩
      simp only [exec_discard_action] at hx
      split_ifs at hx with hrole hcount
      exact ⟨(can_propose_iff _).mp hrole, hcount⟩
    · rintro ⟨hrole, hcount⟩
      have hcd : (get_user_id_to_role s (get_user_id s caller)).can_discard_action
          = true := (can_propose_iff _).mpr hrole
      refine ⟨clear_action s action_id, ?_⟩
      simp only [exec_discard_action]
      rw [if_pos hcd, if_pos hcount]
  · intro s' hx
    simp only [exec_discard_action] at hx
    split_ifs at hx with hrole hcount
    cases hx
    exact ⟨clear_action_not_pending s action_id, clear_action_signers s action_id⟩

theorem claim_C7_witness :
    (∃ s', exec_discard_action
        (run_op (Op.performAction 5 2)
          (run_op (Op.propose 5 (MAction.AddProposer 5))
            (run_op (Op.propose 5 (MAction.ChangeQuorum 1))
              (state_of (exec_init 0 0 1 [5, 6]))))) 6 1 = .ok s') ∧
    action_signer_ids
        (run_op (Op.performAction 5 2)
          (run_op (Op.propose 5 (MAction.AddProposer 5))
            (run_op (Op.propose 5 (MAction.ChangeQuorum 1))
              (state_of (exec_init 0 0 1 [5, 6]))))) 1 = [1] :=
  ⟨(claim_C7_discard_iff
      (run_op (Op.performAction 5 2)
        (run_op (Op.propose 5 (MAction.AddProposer 5))
          (run_op (Op.propose 5 (MAction.ChangeQuorum 1))
            (state_of (exec_init 0 0 1 [5, 6]))))) 6 1).1.mpr (by decide),
   by decide⟩

/-- C8: `unstake(amount)` succeeds exactly when `amount` does not exceed the
recorded balance and, for a current BoardMember, the remainder stays at or
above `required_stake_amount`; on success the balance drops by `amount` and
`amount` is transferred back to the caller.  A caller whose current role is
not BoardMember may therefore unstake the entire balance. -/
theorem claim_C8_unstake (s : MState) (caller amount : Nat) :
    ((∃ s', exec_unstake s caller amount = .ok s') ↔
      (amount ≤ s.amount_staked caller ∧
       (user_role s caller = UserRole.BoardMember →
          s.required_stake_amount ≤ s.amount_staked caller - amount))) ∧
    (∀ s', exec_unstake s caller amount = .ok s' →
      s'.amount_staked caller = s.amount_staked caller - amount ∧
      s'.sent = s.sent ++ [(caller, amount)]) := by
  constructor
  · constructor
    · rintro ⟨s', hx⟩
      simp only [exec_unstake] at hx
      split_ifs at hx with hle hbm
      refine ⟨hle, fun hb => ?_⟩
      by_contra hc
      exact hbm ⟨hb, by omega⟩
    · rintro ⟨hle, himp⟩
      refine ⟨{ s with
                  amount_staked := fun a => if a = caller
                    then s.amount_staked caller - amount else s.amount_staked a,
                  sent := s.sent ++ [(caller, amount)] }, ?_⟩
      simp only [exec_unstake]
      rw [if_pos hle, if_neg (fun hand => absurd (himp hand.1) (by omega))]
  · intro s' hx
    simp only [exec_unstake] at hx
    split_ifs at hx
    cases hx
    constructor
    · simp
    · rfl

theorem claim_C8_witness :
    (∃ s', exec_unstake
        (run_op (Op.performAction 6 1)
          (run_op (Op.propose 6 (MAction.RemoveUser 5))
            (run_op (Op.stake 5 100) (state_of (exec_init 0 0 1 [5, 6]))))) 5 100
        = .ok s') ∧
    user_role
        (run_op (Op.performAction 6 1)
          (run_op (Op.propose 6 (MAction.RemoveUser 5))
            (run_op (Op.stake 5 100) (state_of (exec_init 0 0 1 [5, 6]))))) 5
      = UserRole.None ∧
    (run_op (Op.performAction 6 1)
        (run_op (Op.propose 6 (MAction.RemoveUser 5))
          (run_op (Op.stake 5 100) (state_of (exec_init 0 0 1 [5, 6]))))).amount_staked 5
      = 100 :=
  ⟨(claim_C8_unstake
      (run_op (Op.performAction 6 1)
        (run_op (Op.propose 6 (MAction.RemoveUser 5))
          (run_op (Op.stake 5 100) (state_of (exec_init 0 0 1 [5, 6]))))) 5 100).1.mpr
      (by decide),
   by decide, by decide⟩

theorem getElem?_append_len {α : Type} (l : List α) (a : α) :
    (l ++ [a])[l.length]? = some a := by
  induction l with
  | nil => rfl
  | cons x rest ih => simp [ih]

/-- C9: `propose_action` succeeds exactly when the caller currently holds the
Proposer or BoardMember role; on success the returned id is one past the
previous last index (hence never 0), the new slot holds the action, and the
new action's signer set is exactly the caller when the caller can sign and
empty otherwise. -/
theorem claim_C9_propose (s : MState) (caller : Nat) (action : MAction)
    (hr : Reachable s) :
    ((∃ r, propose_action s caller action = .ok r) ↔
      (get_user_id_to_role s (get_user_id s caller) = UserRole.Proposer ∨
       get_user_id_to_role s (get_user_id s caller) = UserRole.BoardMember)) ∧
    (∀ s' i, propose_action s caller action = .ok (s', i) →
      (i = get_action_last_index s + 1 ∧ i ≠ 0 ∧
       action_item s' i = some action ∧
       action_signer_ids s' i =
         (if (get_user_id_to_role s (get_user_id s caller)).can_sign = true
          then [get_user_id s caller] else []))) := by
  obtain ⟨_, _, _, h4⟩ := reachable_inv s hr
  constructor
  · constructor
    · rintro ⟨r, hx⟩
      simp only [propose_action] at hx
      split_ifs at hx with hprop hsign
      all_goals exact (can_propose_iff _).mp hprop
    · intro hrole
      have hprop := (can_propose_iff _).mpr hrole
      simp only [propose_action]
      rw [if_pos hprop]
      by_cases hsign : (get_user_id_to_role s (get_user_id s caller)).can_sign = true
      · rw [if_pos hsign]
        exact ⟨_, rfl⟩
      · rw [if_neg hsign]
        exact ⟨_, rfl⟩
  · intro s' i hx
    simp only [propose_action] at hx
    split_ifs at hx with hprop hsign
    · injection hx with hx
      rw [Prod.mk.injEq] at hx
      obtain ⟨rfl, rfl⟩ := hx.symm.imp Eq.symm Eq.symm
      refine ⟨rfl, Nat.succ_ne_zero _, ?_, ?_⟩
      · show action_item
            (set_action_signer_ids { s with actions := s.actions ++ [some action] }
              (s.actions.length + 1) [get_user_id s caller])
            (s.actions.length + 1) = some action
        simp [action_item, set_action_signer_ids, getElem?_append_len]
      · rw [if_pos hsign]
        exact signer_ids_set _ _ _
    · injection hx with hx
      rw [Prod.mk.injEq] at hx
      obtain ⟨rfl, rfl⟩ := hx.symm.imp Eq.symm Eq.symm
      refine ⟨rfl, Nat.succ_ne_zero _, ?_, ?_⟩
      · show action_item { s with actions := s.actions ++ [some action] }
            (s.actions.length + 1) = some action
        simp [action_item, getElem?_append_len]
      · rw [if_neg hsign]
        exact h4 _ (Nat.lt_succ_self _)

theorem claim_C9_witness :
    (∃ r, propose_action (state_of (exec_init 0 0 1 [5])) 5 (MAction.ChangeQuorum 2)
        = .ok r) ∧
    (1 = get_action_last_index (state_of (exec_init 0 0 1 [5])) + 1 ∧ (1 : Nat) ≠ 0 ∧
     action_item
         (run_op (Op.propose 5 (MAction.ChangeQuorum 2)) (state_of (exec_init 0 0 1 [5])))
         1 = some (MAction.ChangeQuorum 2) ∧
     action_signer_ids
         (run_op (Op.propose 5 (MAction.ChangeQuorum 2)) (state_of (exec_init 0 0 1 [5])))
         1 =
       (if (get_user_id_to_role (state_of (exec_init 0 0 1 [5]))
             (get_user_id (state_of (exec_init 0 0 1 [5])) 5)).can_sign = true
        then [get_user_id (state_of (exec_init 0 0 1 [5])) 5] else [])) := by
  have hthm := claim_C9_propose (state_of (exec_init 0 0 1 [5])) 5 (MAction.ChangeQuorum 2)
    (Reachable.init 0 0 1 [5] (state_of (exec_init 0 0 1 [5])) rfl)
  exact ⟨hthm.1.mpr (Or.inr (by decide)),
    hthm.2 (run_op (Op.propose 5 (MAction.ChangeQuorum 2)) (state_of (exec_init 0 0 1 [5])))
      1 rfl⟩

/-- Modelled from the spec: the BatchDeduplicationIndex lookup (§4.6); the
component's source is part of the repository but not under `src/`.  Keys are
`(batch id, content fingerprint)` pairs; value 0 means "no entry". -/
def lookup_entry : List ((Nat × Nat) × Nat) → Nat × Nat → Nat
  | [], _ => 0
  | (k, v) :: rest, key => if k = key then v else lookup_entry rest key

/-- Modelled from the spec: `propose_or_get(batch_id, fingerprint, builder)`
(§4.6): "if an entry already exists for `(batch_id, fingerprint)`, the
proposal is rejected as a duplicate ...; otherwise a new action is proposed
via ActionLog and recorded under the key."  The ActionLog proposal is the
embedded `propose_action`. -/
def propose_or_get (s : MState) (idx : List ((Nat × Nat) × Nat))
    (caller batch fp : Nat) (action : MAction) :
    SCR (MState × List ((Nat × Nat) × Nat) × Nat) :=
  if lookup_entry idx (batch, fp) ≠ 0 then .error "duplicate batch proposal"
  else (propose_action s caller action).map
    (fun r => (r.1, idx ++ [((batch, fp), r.2)], r.2))

/-- Host revert semantics for `propose_or_get`: an error leaves the contract
state and the dedup index unchanged. -/
def run_propose_or_get (s : MState) (idx : List ((Nat × Nat) × Nat))
    (caller batch fp : Nat) (action : MAction) :
    MState × List ((Nat × Nat) × Nat) :=
  match propose_or_get s idx caller batch fp action with
  | .ok r => (r.1, r.2.1)
  | .error _ => (s, idx)

/-- C5: while an entry for `(batch_id, fingerprint)` exists, proposing the
same pair again is rejected as a duplicate; the action log and the index are
unchanged, and the previously recorded action id is still the one recorded
for that key. -/
theorem claim_C5_duplicate_rejected (s : MState) (idx : List ((Nat × Nat) × Nat))
    (caller batch fp : Nat) (action : MAction) (a0 : Nat)
    (hexists : lookup_entry idx (batch, fp) = a0) (hne : a0 ≠ 0) :
    (∃ e, propose_or_get s idx caller batch fp action = .error e) ∧
    run_propose_or_get s idx caller batch fp action = (s, idx) ∧
    lookup_entry (run_propose_or_get s idx caller batch fp action).2 (batch, fp) = a0 := by
  have herr : propose_or_get s idx caller batch fp action
      = .error "duplicate batch proposal" := by
    unfold propose_or_get
    rw [if_pos (by rw [hexists]; exact hne)]
  have hrun : run_propose_or_get s idx caller batch fp action = (s, idx) := by
    unfold run_propose_or_get
    rw [herr]
  refine ⟨⟨_, herr⟩, hrun, ?_⟩
  rw [hrun]
  exact hexists

theorem claim_C5_witness :
    (∃ e, propose_or_get
        (run_propose_or_get (state_of (exec_init 0 0 1 [5])) [] 5 1 2
          (MAction.ChangeQuorum 1)).1
        (run_propose_or_get (state_of (exec_init 0 0 1 [5])) [] 5 1 2
          (MAction.ChangeQuorum 1)).2
        5 1 2 (MAction.ChangeQuorum 1) = .error e) ∧
    run_propose_or_get
        (run_propose_or_get (state_of (exec_init 0 0 1 [5])) [] 5 1 2
          (MAction.ChangeQuorum 1)).1
        (run_propose_or_get (state_of (exec_init 0 0 1 [5])) [] 5 1 2
          (MAction.ChangeQuorum 1)).2
        5 1 2 (MAction.ChangeQuorum 1)
      = ((run_propose_or_get (state_of (exec_init 0 0 1 [5])) [] 5 1 2
            (MAction.ChangeQuorum 1)).1,
         (run_propose_or_get (state_of (exec_init 0 0 1 [5])) [] 5 1 2
            (MAction.ChangeQuorum 1)).2) ∧
    lookup_entry
        (run_propose_or_get
          (run_propose_or_get (state_of (exec_init 0 0 1 [5])) [] 5 1 2
            (MAction.ChangeQuorum 1)).1
          (run_propose_or_get (state_of (exec_init 0 0 1 [5])) [] 5 1 2
            (MAction.ChangeQuorum 1)).2
          5 1 2 (MAction.ChangeQuorum 1)).2 (1, 2) = 1 :=
  claim_C5_duplicate_rejected
    (run_propose_or_get (state_of (exec_init 0 0 1 [5])) [] 5 1 2
      (MAction.ChangeQuorum 1)).1
    (run_propose_or_get (state_of (exec_init 0 0 1 [5])) [] 5 1 2
      (MAction.ChangeQuorum 1)).2
    5 1 2 (MAction.ChangeQuorum 1) 1 (by decide) (by decide)

end Multisig

